import Mathlib

/-!
Verification of the mower-oo firmware against its natural-language
specification.

This file gives a shallow embedding, in Lean, of the integer algorithms and
state machines of the repository (src/src and src/lib), and proves or refutes
the specification claims about them.  C machine arithmetic is modelled over
Int and Nat:

* signed division and modulo truncate toward zero, so C division is Int.tdiv;
* an arithmetic right shift of a possibly negative value is floor division by
  a power of two, Int.fdiv (function asr below);
* narrowing casts are modelled by wrap16 and wrap32 (two-complement wrap),
  and unsigned arithmetic by Nat with explicit reduction modulo 2 to the
  relevant power where the C value can wrap;
* C loops whose iteration count is bounded by a simple function of the input
  are written as structural recursion, either on the exact loop counter
  (the bit index of the digit-by-digit square root, the 12 and 16 round
  CORDIC loops) or on a fuel argument that dominates the number of
  iterations the C loop can execute on the values it is ever given
  (the angle normalization loops, which remove 3600 per iteration, and the
  halve-until-16-bit loops, which cannot run more than 64 times on any
  64-bit quantity).  The loop bodies are verbatim translations.
-/

/- ====================================================================
   C machine helpers
   ==================================================================== -/

/-- Two-complement wrap to a signed 16-bit value (a cast to int16_t). -/
def wrap16 (v : Int) : Int := (v + 32768) % 65536 - 32768

/-- Two-complement wrap to a signed 32-bit value (a cast to int32_t). -/
def wrap32 (v : Int) : Int := (v + 2147483648) % 4294967296 - 2147483648

/-- Arithmetic shift right by k bits, as gcc implements it on signed values:
floor division by 2 to the k. -/
def asr (v : Int) (k : Nat) : Int := Int.fdiv v (2 ^ k)

/-- Arduino constrain(v, -1023, 1023), the clamp used by every motor driver. -/
def constrain1023 (v : Int) : Int :=
  if v < -1023 then -1023 else if 1023 < v then 1023 else v

/- ====================================================================
   IntegerMathUtils.h / GeometryUtils.h : digit-by-digit integer sqrt

   The C loop runs with bit = 4^K, 4^(K-1), ..., 4^0 and stops when
   bit >>= 2 reaches zero.  sqrtLoop n result k performs the iterations
   for bit = 4^k down to 4^0; findBitExp returns the exponent K of the
   starting bit (the C code keeps bit itself and shifts it right by two,
   which is the same descent).
   ==================================================================== -/

def sqrtLoop (n result : Int) : Nat → Int
  | 0 =>
    if result + 1 ≤ n then result / 2 + 1 else result / 2
  | k+1 =>
    let bit : Int := 4 ^ (k+1)
    if result + bit ≤ n then sqrtLoop (n - (result + bit)) (result / 2 + bit) k
    else sqrtLoop n (result / 2) k

def findBitExp (n : Int) : Nat → Nat
  | 0 => 0
  | k+1 => if n < (4:Int)^(k+1) then findBitExp n k else k+1

/-- GeometryUtils::integerSqrt (and the identical IntegerMath::integerSqrt):
32-bit digit-by-digit square root, starting bit 1 shl 30 = 4 pow 15. -/
def integerSqrt (n : Int) : Int :=
  if n ≤ 0 then 0 else if n = 1 then 1 else sqrtLoop n 0 (findBitExp n 15)

/-- IntegerMath::integerSqrt64: 64-bit variant, starting bit 1 shl 62. -/
def integerSqrt64 (n : Int) : Int :=
  if n ≤ 0 then 0 else if n = 1 then 1 else sqrtLoop n 0 (findBitExp n 31)

/- ====================================================================
   MowerTypes.h : Point2D_int
   ==================================================================== -/

structure Point2D where
  x : Int
  y : Int
deriving DecidableEq

def Point2D.dot (a b : Point2D) : Int := a.x * b.x + a.y * b.y

def Point2D.cross (a b : Point2D) : Int := a.x * b.y - a.y * b.x

def Point2D.magnitude (p : Point2D) : Int := integerSqrt64 (p.x * p.x + p.y * p.y)

def Point2D.distanceTo (a b : Point2D) : Int :=
  integerSqrt64 ((a.x - b.x) * (a.x - b.x) + (a.y - b.y) * (a.y - b.y))

def Point2D.normalized (p : Point2D) : Point2D :=
  let mag := p.magnitude
  if 10 < mag then ⟨(p.x * 1000).tdiv mag, (p.y * 1000).tdiv mag⟩ else ⟨0, 0⟩

def Point2D.sub (a b : Point2D) : Point2D := ⟨a.x - b.x, a.y - b.y⟩

/- ====================================================================
   FixedTrig.hpp : FastTrigOptimized<128,128,128>

   Arctangent quarter table entries (computed lazily: the C table is
   generated once by constexpr evaluation of exactly this recurrence).
   x and y are int32 values, angle accumulates in a uint32 and is finally
   cast to uint16, hence the emod 65536.
   ==================================================================== -/

def atanCordicAux (target : Int) : Nat → Nat → Int → Int → Int → Int
  | _, 0, _, _, angle => angle
  | k, fuel+1, x, y, angle =>
    let step : Int := Int.fdiv 2048 (2 ^ k)
    if y < target then
      atanCordicAux target (k+1) fuel (x - asr y k) (y + asr x k) (angle + step)
    else
      atanCordicAux target (k+1) fuel (x + asr y k) (y - asr x k) (angle - step)

def atanEntry (i : Nat) : Int :=
  let target : Int := (i * 16384) / 128
  (atanCordicAux target 0 16 16384 0 0) % 65536

/-- FastTrigOptimized::atan2 on int16 inputs; returns the uint16 angle in
units of 16384 per turn.  ANGLE_MAX = 8192, table mask 127, table bits 7. -/
def trigAtan2 (y x : Int) : Int :=
  if x = 0 then (if 0 < y then 4096 else if y < 0 then 12288 else 0)
  else
    let abs_x := if x < 0 then -x else x
    let abs_y := if y < 0 then -y else y
    let qa : Nat := (if x < 0 then 2 else 0) + (if y < 0 then 1 else 0)
    let angle :=
      if abs_y ≤ abs_x then
        let ratio_full := (abs_y * 32768).tdiv abs_x
        let index := ((ratio_full.tdiv 256) % 128).toNat
        let fraction := ratio_full % 256
        let y0 := atanEntry index
        let y1 := atanEntry ((index + 1) % 128)
        (y0 + asr ((y1 - y0) * fraction) 8) % 65536
      else
        let ratio_full := (abs_x * 32768).tdiv abs_y
        let index := ((ratio_full.tdiv 256) % 128).toNat
        let fraction := ratio_full % 256
        let y0 := atanEntry index
        let y1 := atanEntry ((index + 1) % 128)
        let base := (y0 + asr ((y1 - y0) * fraction) 8) % 65536
        (4096 - base) % 65536
    let offset : Int := if qa = 0 then 0 else if qa = 1 then 16384 else 8192
    let sign : Int := if qa = 0 ∨ qa = 3 then 1 else -1
    (offset + angle * sign) % 65536

/-- FastTrigOptimized::magnitude CORDIC loop: 12 rounds over the uint32
absolute values, rounds indexed i = 0..11. -/
def magLoop : Nat → Nat → Nat → Nat → Nat × Nat
  | _, 0, ax, ay => (ax, ay)
  | i, f+1, ax, ay =>
    let xs := ax / 2 ^ i
    let ys := ay / 2 ^ i
    if 0 < ay then
      magLoop (i+1) f ((ax + ys) % 4294967296) (if xs < ay then ay - xs else 0)
    else
      magLoop (i+1) f ax ay

/-- FastTrigOptimized::magnitude: CORDIC reduction followed by the gain
compensation multiply by 39797 in uint32 arithmetic (which can wrap) and a
right shift by 16. -/
def trigMagnitude (x y : Int) : Int :=
  let ax : Nat := x.natAbs
  let ay : Nat := y.natAbs
  let p := magLoop 0 12 ax ay
  ((p.1 * 39797) % 4294967296) / 65536

/- ====================================================================
   src/src/IntegerMath.h : fast_magnitude.  The C source reads

     while (x > 32767 || x < -32767 || y > 32767 || y < -32767) {
        x >>= 1; y >>= 1;
        return Trig::magnitude(x, y) << 1;
     }
     return Trig::magnitude(x, y);

   The loop body returns unconditionally, so at most one halving ever
   happens and the scale-back factor is always exactly 2.
   ==================================================================== -/

def fast_magnitude (x y : Int) : Int :=
  if 32767 < x ∨ x < -32767 ∨ 32767 < y ∨ y < -32767 then
    (trigMagnitude (Int.fdiv x 2) (Int.fdiv y 2)) * 2
  else trigMagnitude x y

/- IntegerMathGeneric.h : IntegerTrigWrapper.fast_magnitude, the repaired
variant that counts the halvings and scales back by the same count.  The C
while loop halves until both values fit in 16 bits; 64 fuel dominates its
iteration count for any 64-bit input.  After the loop the values are cast
to int16_t (wrap16, lossless there because of the loop guard). -/

def halveLoop : Nat → Int → Int → Nat → Int × Int × Nat
  | 0, x, y, sh => (x, y, sh)
  | f+1, x, y, sh =>
    if 32767 < x ∨ x < -32767 ∨ 32767 < y ∨ y < -32767 then
      halveLoop f (Int.fdiv x 2) (Int.fdiv y 2) (sh + 1)
    else (x, y, sh)

def fastMagnitudeGeneric (x y : Int) : Int :=
  let r := halveLoop 64 x y 0
  (trigMagnitude (wrap16 r.1) (wrap16 r.2.1)) * 2 ^ r.2.2

/- ====================================================================
   IntegerMathGeneric.h : IntegerTrigWrapper with the parameters of
   IntegerMathDefault.h (ANGLE_360 = 3600, ANGLE_180 = 1800, mower scale
   1000, fixed scale 8192, fixed angle max 16384).  These are the free
   functions LineFollower.cpp calls.  fixed_to_mower_mul is
   3600 * 1024 / 16384 = 225 exactly.
   ==================================================================== -/

def fixedToMowerAngle (fixedAngle : Int) : Int := wrap16 (asr (fixedAngle * 225) 10)

/-- The input halving loop of IntegerTrigWrapper.atan2_int; it halves while
either coordinate is outside the int16 range.  Fuel 64 dominates the
iteration count on any input the 32-bit caller can produce. -/
def atan2Halve : Nat → Int → Int → Int × Int
  | 0, y, x => (y, x)
  | f+1, y, x =>
    if 32767 < y ∨ y < -32767 ∨ 32767 < x ∨ x < -32767 then
      atan2Halve f (Int.fdiv y 2) (Int.fdiv x 2)
    else (y, x)

def atan2_int (y x : Int) : Int :=
  if y = 0 ∧ x = 0 then 0
  else
    let p := atan2Halve 64 y x
    fixedToMowerAngle (trigAtan2 p.1 p.2)

/- The normalize and difference loops subtract or add 3600 once per
iteration, so the chosen fuels (derived from the magnitude of the input)
strictly dominate the iteration counts of the C while loops. -/

def subLoop3600 : Nat → Int → Int
  | 0, a => a
  | f+1, a => if 3600 ≤ a then subLoop3600 f (a - 3600) else a

def addLoop3600 : Nat → Int → Int
  | 0, a => a
  | f+1, a => if a < 0 then addLoop3600 f (a + 3600) else a

/-- IntegerTrigWrapper.normalizeAngle (the normalizeAngle free function):
early out when already in range, otherwise subtract 3600 while at or above
3600, then add 3600 while negative. -/
def normalizeAngle (a : Int) : Int :=
  if 0 ≤ a ∧ a < 3600 then a else addLoop3600 (-a).toNat (subLoop3600 a.toNat a)

def diffSubLoop : Nat → Int → Int
  | 0, d => d
  | f+1, d => if 1800 < d then diffSubLoop f (d - 3600) else d

def diffAddLoop : Nat → Int → Int
  | 0, d => d
  | f+1, d => if d < -1800 then diffAddLoop f (d + 3600) else d

/-- IntegerTrigWrapper.angleDifference: fold target - current into the range
-1800..1800 and return it as an int16. -/
def angleDifference (target current : Int) : Int :=
  let d := target - current
  wrap16 (diffAddLoop (-d + 3600).toNat (diffSubLoop d.toNat d))

/- ====================================================================
   LineFollower.cpp : the per-tick steering computation.

   The sensor values (current position and heading) are the explicit pos
   and heading arguments; the gains, lookahead, base speed and completion
   threshold are the constructor defaults of LineFollower
   (K_crossTrack = 1000, K_heading = 2000, lookahead = 1000 mm,
   baseSpeed = Speed50 = 500, completionThreshold = 300 mm).
   ==================================================================== -/

def calculateBearing (fr tp : Point2D) : Int :=
  let dx := tp.x - fr.x
  let dy := tp.y - fr.y
  let bearing := atan2_int dy dx
  normalizeAngle (wrap16 (900 - bearing))

def calculateNearestPointOnLine (startP endP pos : Point2D) : Point2D :=
  let lineVector := endP.sub startP
  let posVector := pos.sub startP
  let lineLengthSquared := lineVector.dot lineVector
  if lineLengthSquared < 100 then startP
  else
    let t0 := wrap32 ((posVector.dot lineVector * 1000).tdiv lineLengthSquared)
    let t1 := if t0 < 0 then 0 else t0
    let t := if 1000 < t1 then 1000 else t1
    ⟨startP.x + (lineVector.x * t).tdiv 1000, startP.y + (lineVector.y * t).tdiv 1000⟩

def calculateCrossTrackError (startP endP pos : Point2D) : Int :=
  let lineVector := endP.sub startP
  let posVector := pos.sub startP
  let crossProduct := posVector.cross lineVector
  let lineMagnitude := lineVector.magnitude
  if lineMagnitude < 10 then 0
  else wrap32 (crossProduct.tdiv lineMagnitude)

def calculateLookAheadPoint (startP endP pos : Point2D) (lookahead : Int) : Point2D :=
  let nearestPoint := calculateNearestPointOnLine startP endP pos
  let lineDirection := (endP.sub startP).normalized
  let la : Point2D := ⟨nearestPoint.x + (lineDirection.x * lookahead).tdiv 1000,
                       nearestPoint.y + (lineDirection.y * lookahead).tdiv 1000⟩
  let distToEnd := la.distanceTo endP
  let nearestToEnd := nearestPoint.distanceTo endP
  if nearestToEnd < distToEnd then endP else la

def calculateHeadingError (startP endP pos : Point2D) (heading lookahead : Int) : Int :=
  let la := calculateLookAheadPoint startP endP pos lookahead
  let desiredHeading := calculateBearing pos la
  angleDifference desiredHeading heading

/-- LineFollower::Callback with the default parameters: none when the
completion branch is taken (distance to the end point below 300 mm, motors
commanded to stop), otherwise the pair of wheel target speeds passed to
DriveUnit::setTargetSpeed. -/
def lineFollowerCallback (startP endP pos : Point2D) (heading : Int) : Option (Int × Int) :=
  let distanceToEnd := pos.distanceTo endP
  if distanceToEnd < 300 then none
  else
    let cte := calculateCrossTrackError startP endP pos
    let he := calculateHeadingError startP endP pos heading 1000
    let cteContribution := (1000 * cte).tdiv 1000
    let headingContribution := (2000 * he).tdiv 1000
    let sc0 := cteContribution + headingContribution
    let sc1 := if 500 < sc0 then 500 else sc0
    let sc := if sc1 < -500 then -500 else sc1
    let l0 := wrap16 (500 - sc)
    let r0 := wrap16 (500 + sc)
    let clampW (v : Int) : Int := if 1000 < v then 1000 else if v < -1000 then -1000 else v
    some (clampW l0, clampW r0)

/-- The demonstration line of the steering claim: a 10 m segment along the
positive x axis, whose true compass bearing is 900 (due east). -/
def lineS : Point2D := ⟨0, 0⟩

def lineE : Point2D := ⟨10000, 0⟩

/-- The steering property claimed for a robot standing at mid-line,
displaced py millimeters to the left of the travel direction (positive y),
heading aligned with the line (900): the computed cross-track error is
negative and the commanded left wheel speed is strictly below the right
wheel speed. -/
def steersRight (py : Int) : Bool :=
  decide (calculateCrossTrackError lineS lineE ⟨5000, py⟩ < 0) &&
  (match lineFollowerCallback lineS lineE ⟨5000, py⟩ 900 with
   | some (l, r) => decide (l < r)
   | none => false)

/- ====================================================================
   Queue.h : Queue<Data, nofItems, Properties>

   head and count are char fields; they stay small, so they are modelled
   as Int with the range invariant QInv.  The data array is a total
   function on Int indices; only indices 0..C-1 are ever touched.
   The template parameters are the capacity C (nofItems) and the
   overwrite-on-full property bit ow.
   ==================================================================== -/

structure QueueState (α : Type) where
  head : Int
  count : Int
  data : Int → α

def emptyQueue {α : Type} (d0 : α) : QueueState α :=
  { head := 0, count := 0, data := fun _ => d0 }

/-- Queue::advancePtr: wrap to 0 from nofItems - 1. -/
def advancePtr (C p : Int) : Int := if C - 1 ≤ p then 0 else p + 1

/-- Queue::push.  Avail is the C truthiness of spaceAvailable(), that is
nofItems - count being nonzero; on success the head advances and the slot
at the new head is overwritten; count grows only when space was available. -/
def qPush {α : Type} (C : Int) (ow : Bool) (s : QueueState α) (v : α) :
    QueueState α × Bool :=
  let avail := C - s.count
  if avail ≠ 0 ∨ ow = true then
    let h := advancePtr C s.head
    let s1 : QueueState α :=
      { head := h, count := s.count, data := fun i => if i = h then v else s.data i }
    if avail ≠ 0 then ({ s1 with count := s.count + 1 }, true) else (s1, true)
  else (s, false)

/-- Queue::pull: none when empty; otherwise decrement count, read the slot
head - count (wrapped into range by one conditional add of C, as in the
source) and return it. -/
def qPull {α : Type} (C : Int) (s : QueueState α) : Option (α × QueueState α) :=
  if s.count = 0 then none
  else
    let c := s.count - 1
    let t0 := s.head - c
    let t := if t0 < 0 then t0 + C else t0
    some (s.data t, { s with count := c })

def qPushAll {α : Type} (C : Int) (ow : Bool) :
    QueueState α → List α → QueueState α × List Bool
  | s, [] => (s, [])
  | s, v :: vs =>
    let r1 := qPush C ow s v
    let r2 := qPushAll C ow r1.1 vs
    (r2.1, r1.2 :: r2.2)

/-- Pull repeatedly (fuel-bounded; count decreases by one per pull, so
count.toNat fuel drains the queue). -/
def qPullN {α : Type} (C : Int) : QueueState α → Nat → List α
  | _, 0 => []
  | s, f+1 =>
    match qPull C s with
    | none => []
    | some (v, s1) => v :: qPullN C s1 f

def qDrain {α : Type} (C : Int) (s : QueueState α) : List α :=
  qPullN C s s.count.toNat

/-- Abstraction: the logical FIFO contents, oldest first; the element
pushed i-th from the oldest lives at index head - count + 1 + i mod C. -/
def qList {α : Type} (C : Int) (s : QueueState α) : List α :=
  (List.range s.count.toNat).map
    (fun i : Nat => s.data ((s.head - s.count + 1 + (i : Int)) % C))

/-- Range invariant of a reachable queue state. -/
def QInv {α : Type} (C : Int) (s : QueueState α) : Prop :=
  0 ≤ s.head ∧ s.head < C ∧ 0 ≤ s.count ∧ s.count ≤ C

/-- Specification-side push on lists: append, dropping the oldest element
when the capacity is reached. -/
def listPush {α : Type} (cap : Nat) (l : List α) (v : α) : List α :=
  if l.length < cap then l ++ [v] else l.drop 1 ++ [v]

/-- The last cap elements of a list (all of it when shorter). -/
def lastN {α : Type} (cap : Nat) (l : List α) : List α := l.drop (l.length - cap)

/- ====================================================================
   Wheel.h : fixed-point speed ramp.  SCALE = 1024.
   ==================================================================== -/

structure WheelState where
  TargetSpeed : Int
  CurSpeed : Int
  cur_acc : Int
  target_acc : Int
  step_acc : Int
deriving DecidableEq

/-- Constructor state (motor reset, all ramp state zero). -/
def wheelInit : WheelState :=
  { TargetSpeed := 0, CurSpeed := 0, cur_acc := 0, target_acc := 0, step_acc := 0 }

/-- Wheel::setWheelSpeed: record the target, rebase the accumulator on the
current speed, divide the gap by the iteration count (at least 2), and fall
back to a one-accumulator-unit step when the division truncates to zero. -/
def setWheelSpeed (s : WheelState) (speed iterations : Int) : WheelState :=
  let target_acc := speed * 1024
  let cur_acc := s.CurSpeed * 1024
  let iters := if iterations ≤ 1 then 2 else iterations
  let step0 := (target_acc - cur_acc).tdiv iters
  let step_acc :=
    if step0 = 0 ∧ target_acc ≠ cur_acc then (if cur_acc < target_acc then 1 else -1)
    else step0
  { TargetSpeed := speed, CurSpeed := s.CurSpeed,
    cur_acc := cur_acc, target_acc := target_acc, step_acc := step_acc }

/-- Wheel::EmitNewSpeed: advance the accumulator, recompute the rounded
speed, and record it when it changed (the motor write is the recorded
CurSpeed). -/
def emitNewSpeed (s : WheelState) : WheelState :=
  let cur_acc := s.cur_acc + s.step_acc
  let newSpeed := (cur_acc + 512).tdiv 1024
  if newSpeed ≠ s.CurSpeed then
    { s with cur_acc := cur_acc, CurSpeed := newSpeed }
  else
    { s with cur_acc := cur_acc }

def emitIter (s : WheelState) : Nat → WheelState
  | 0 => s
  | k+1 => emitNewSpeed (emitIter s k)

/- ====================================================================
   L298.cpp : moderate-power dual-channel H-bridge driver.
   pinIN1 and pinIN2 are the direction pins, lastAnalogWrite the duty last
   written by analogWrite, pwmVal the _pwmVal byte, speed the _speed field.
   Note that getSpeed() returns _pwmVal, not _speed.
   ==================================================================== -/

structure L298State where
  pinIN1 : Bool
  pinIN2 : Bool
  lastAnalogWrite : Int
  speed : Int
  pwmVal : Int
deriving DecidableEq

def l298Init : L298State :=
  { pinIN1 := false, pinIN2 := false, lastAnalogWrite := 0, speed := 0, pwmVal := 0 }

/-- L298::stop: both direction pins low, analogWrite(255); _speed and
_pwmVal are not touched. -/
def l298Stop (s : L298State) : L298State :=
  { s with pinIN1 := false, pinIN2 := false, lastAnalogWrite := 255 }

/-- L298::move: clamp, store _speed, route 0 to stop(), otherwise set the
direction pins by sign and write the duty abs(S) shr 2. -/
def l298Move (s : L298State) (S : Int) : L298State :=
  let Sc := constrain1023 S
  let s1 := { s with speed := Sc }
  if Sc = 0 then l298Stop s1
  else
    let s2 :=
      if 0 ≤ Sc then { s1 with pinIN1 := true, pinIN2 := false }
      else { s1 with pinIN1 := false, pinIN2 := true }
    let Sa := if Sc < 0 then -Sc else Sc
    let pv := Sa / 4
    { s2 with pwmVal := pv, lastAnalogWrite := pv }

/-- L298::getSpeed returns the _pwmVal byte. -/
def l298GetSpeed (s : L298State) : Int := s.pwmVal

/- ====================================================================
   HighPowerHBridgeMotor.cpp
   ==================================================================== -/

structure HPState where
  pinA1 : Bool
  pinA2 : Bool
  duty : Int
  currentSpeed : Int
deriving DecidableEq

def hpInit : HPState := { pinA1 := false, pinA2 := false, duty := 0, currentSpeed := 0 }

def hpMove (s : HPState) (speed : Int) : HPState :=
  let Sc := constrain1023 speed
  let dir :=
    if 0 < Sc then (true, false) else if Sc < 0 then (false, true) else (false, false)
  let Sa := if Sc < 0 then -Sc else Sc
  { pinA1 := dir.1, pinA2 := dir.2, duty := Sa / 4, currentSpeed := Sc }

def hpGetSpeed (s : HPState) : Int := s.currentSpeed

/- ====================================================================
   VirtualMotor.h
   ==================================================================== -/

structure VMState where
  speed : Int
deriving DecidableEq

def vmInit : VMState := { speed := 0 }

def vmMove (_s : VMState) (speed : Int) : VMState := { speed := constrain1023 speed }

def vmGetSpeed (s : VMState) : Int := s.speed

/- ====================================================================
   PerimeterStorage.h

   The in-use prefix of the _waypoints delta array is modelled as a list;
   _waypointCount is kept separately, exactly as in the source.
   MAX_PERIMETER_WAYPOINTS = 1000.
   ==================================================================== -/

structure PerimState where
  origin : Point2D
  waypoints : List (Int × Int)
  count : Int
deriving DecidableEq

def emptyPerim : PerimState := { origin := ⟨0, 0⟩, waypoints := [], count := 0 }

def sumDeltas (o : Point2D) : List (Int × Int) → Point2D
  | [] => o
  | d :: rest => sumDeltas ⟨o.x + d.1, o.y + d.2⟩ rest

/-- PerimeterStorage::getWaypoint: out-of-range index yields the origin of
coordinates, index 0 the stored origin, and any other index the origin plus
the sum of the first index deltas. -/
def getWaypointAt (s : PerimState) (index : Int) : Point2D :=
  if index < 0 ∨ s.count ≤ index then ⟨0, 0⟩
  else if index = 0 then s.origin
  else sumDeltas s.origin (s.waypoints.take index.toNat)

/-- PerimeterStorage::addWaypoint. -/
def addWaypoint (s : PerimState) (x y : Int) : PerimState × Bool :=
  if 1000 ≤ s.count then (s, false)
  else if s.count = 0 then
    ({ s with origin := ⟨x, y⟩, count := 1 }, true)
  else
    let lastPoint := getWaypointAt s (s.count - 1)
    let dx := x - lastPoint.x
    let dy := y - lastPoint.y
    if dx < -32767 ∨ 32767 < dx ∨ dy < -32767 ∨ 32767 < dy then (s, false)
    else ({ s with waypoints := s.waypoints ++ [(dx, dy)], count := s.count + 1 }, true)

/-- The writes the copy loop of getWaypoints performs after the
unconditional buffer[0] write: running prefix sums starting at index 1. -/
def prefixWrites (pos : Point2D) : List (Int × Int) → Nat → List (Nat × Point2D)
  | [], _ => []
  | d :: rest, i =>
    let p : Point2D := ⟨pos.x + d.1, pos.y + d.2⟩
    (i, p) :: prefixWrites p rest (i + 1)

/-- PerimeterStorage::getWaypoints: the returned count is the smaller of
the stored count and maxCount (by the exact conditional of the source), and
the list records every buffer write the call performs, as (index, value)
pairs: buffer[0] receives the origin before the loop runs at all. -/
def getWaypointsModel (s : PerimState) (maxCount : Int) : Int × List (Nat × Point2D) :=
  let count := if s.count < maxCount then s.count else maxCount
  (count, (0, s.origin) :: prefixWrites s.origin (s.waypoints.take (count - 1).toNat) 1)

/- ====================================================================
   MotionManager.h with the PatternController and LineFollowController
   adapters.  The started flag of each adapter (its _isActive field, which
   start() sets and stop() clears) is tracked, together with the event
   trace of start and stop calls the manager issues.
   ==================================================================== -/

inductive CtrlId
  | pattern
  | lineF
deriving DecidableEq

inductive MotionMode
  | MOTION_IDLE
  | MOTION_PATTERN
  | MOTION_LINE_FOLLOWING
  | MOTION_OBSTACLE_AVOID
  | MOTION_EMERGENCY_STOP
deriving DecidableEq

inductive MMEvent
  | started (c : CtrlId)
  | stopped (c : CtrlId)
deriving DecidableEq

structure MMState where
  active : Option CtrlId
  current : MotionMode
  patActive : Bool
  lineActive : Bool
  events : List MMEvent
deriving DecidableEq

def mmInit : MMState :=
  { active := none, current := .MOTION_IDLE, patActive := false, lineActive := false,
    events := [] }

/-- A controller adapter stop() call: clears its started flag. -/
def ctrlStop (s : MMState) (c : CtrlId) : MMState :=
  match c with
  | .pattern => { s with patActive := false, events := s.events ++ [.stopped c] }
  | .lineF => { s with lineActive := false, events := s.events ++ [.stopped c] }

/-- A controller adapter start() call: sets its started flag. -/
def ctrlStart (s : MMState) (c : CtrlId) : MMState :=
  match c with
  | .pattern => { s with patActive := true, events := s.events ++ [.started c] }
  | .lineF => { s with lineActive := true, events := s.events ++ [.started c] }

/-- MotionManager::switchMode: stop and release the active controller,
select the new one (none for idle, emergency, obstacle avoidance and
unknown states), record the state, then start the selection if any. -/
def switchMode (s : MMState) (ns : MotionMode) : MMState :=
  let s1 :=
    match s.active with
    | some c => { ctrlStop s c with active := none }
    | none => s
  let newActive : Option CtrlId :=
    match ns with
    | .MOTION_PATTERN => some .pattern
    | .MOTION_LINE_FOLLOWING => some .lineF
    | _ => none
  let s2 := { s1 with active := newActive, current := ns }
  match newActive with
  | some c => ctrlStart s2 c
  | none => s2

/-- MotionManager::emergencyStop: stop the active controller, clear it and
force the emergency state. -/
def mmEmergencyStop (s : MMState) : MMState :=
  let s1 :=
    match s.active with
    | some c => ctrlStop s c
    | none => s
  { s1 with active := none, current := .MOTION_EMERGENCY_STOP }

inductive MMCmd
  | switch (ns : MotionMode)
  | estop
deriving DecidableEq

def mmStep (s : MMState) : MMCmd → MMState
  | .switch ns => switchMode s ns
  | .estop => mmEmergencyStop s

def mmRun (s : MMState) : List MMCmd → MMState
  | [] => s
  | c :: cs => mmRun (mmStep s c) cs

/- ====================================================================
   Specification-side invariants
   ==================================================================== -/

/-- The exclusivity invariant of the motion manager: a started controller
is always the one the manager holds as active. -/
def mmInv (s : MMState) : Prop :=
  (s.patActive = true → s.active = some CtrlId.pattern) ∧
  (s.lineActive = true → s.active = some CtrlId.lineF)

/- ====================================================================
   Theorems
   ==================================================================== -/

set_option maxRecDepth 100000

lemma four_pow_eq_sq (m : Nat) : (4:Int)^m = ((2:Int)^m)^2 := by
  rw [← pow_mul, show (4:Int) = 2^2 from by norm_num, ← pow_mul, Nat.mul_comm]

lemma sqrtLoop_correct (k : Nat) : ∀ (N R : Int), 0 ≤ R → R^2 ≤ N →
    N < (R + 2^(k+1))^2 →
    (sqrtLoop (N - R^2) (R * 2^(k+1)) k)^2 ≤ N ∧
    N < (sqrtLoop (N - R^2) (R * 2^(k+1)) k + 1)^2 := by
  induction k with
  | zero =>
    intro N R hR h1 h2
    simp only [sqrtLoop]
    have h2' : N < (R + 2)^2 := by simpa using h2
    have hdiv : R * 2^(0+1) / 2 = R := by
      simpa using Int.mul_ediv_cancel R (by norm_num : (2:Int) ≠ 0)
    by_cases hc : R * 2^(0+1) + 1 ≤ N - R^2
    · rw [if_pos hc, hdiv]
      norm_num at hc
      constructor
      · nlinarith [hc]
      · nlinarith [h2']
    · rw [if_neg hc, hdiv]
      push_neg at hc
      norm_num at hc
      constructor
      · exact h1
      · nlinarith [hc]
  | succ k ih =>
    intro N R hR h1 h2
    simp only [sqrtLoop]
    have hpow : (2:Int)^(k+1+1) = 2^(k+1) * 2 := pow_succ 2 (k+1)
    have hdiv : R * 2^(k+1+1) / 2 = R * 2^(k+1) := by
      rw [hpow, ← mul_assoc]
      exact Int.mul_ediv_cancel _ (by norm_num)
    have hs : (4:Int)^(k+1) = ((2:Int)^(k+1))^2 := four_pow_eq_sq (k+1)
    by_cases hc : R * 2^(k+1+1) + 4^(k+1) ≤ N - R^2
    · rw [if_pos hc, hdiv]
      have harg1 : N - R^2 - (R * 2^(k+1+1) + 4^(k+1)) = N - (R + 2^(k+1))^2 := by
        rw [hs, hpow]; ring
      have harg2 : R * 2^(k+1) + 4^(k+1) = (R + 2^(k+1)) * 2^(k+1) := by
        rw [hs]; ring
      rw [harg1, harg2]
      apply ih
      · positivity
      · nlinarith [hc]
      · have hx : (R + 2^(k+1) + 2^(k+1)) = R + 2^(k+1+1) := by rw [hpow]; ring
        rw [hx]
        exact h2
    · rw [if_neg hc, hdiv]
      apply ih N R hR h1
      nlinarith [hc]

lemma findBitExp_spec (k : Nat) : ∀ (n : Int), 1 ≤ n → n < 4^(k+1) →
    (4:Int)^(findBitExp n k) ≤ n ∧ n < 4^(findBitExp n k + 1) := by
  induction k with
  | zero =>
    intro n h1 h2
    simp only [findBitExp]
    exact ⟨by simpa using h1, by simpa using h2⟩
  | succ k ih =>
    intro n h1 h2
    simp only [findBitExp]
    by_cases hc : n < (4:Int)^(k+1)
    · rw [if_pos hc]; exact ih n h1 hc
    · rw [if_neg hc]; exact ⟨not_lt.mp hc, h2⟩

/-- Claim C7 (confirmed): for all n in the range 0 to 2 pow 30,
integerSqrt n is the floor square root (its square is at most n and the
next square exceeds n), and every nonpositive n yields 0. -/
theorem claim_C7_integerSqrt :
    (∀ n : Int, 0 ≤ n → n ≤ 2^30 →
      (integerSqrt n)^2 ≤ n ∧ n < (integerSqrt n + 1)^2) ∧
    (∀ n : Int, n ≤ 0 → integerSqrt n = 0) := by
  constructor
  · intro n h0 h30
    by_cases hz : n = 0
    · subst hz; norm_num [integerSqrt]
    by_cases ho : n = 1
    · subst ho; norm_num [integerSqrt]
    have h2n : 2 ≤ n := by omega
    have hn0 : ¬ n ≤ 0 := by omega
    rw [integerSqrt, if_neg hn0, if_neg ho]
    have hlt : n < (4:Int)^(15+1) := by
      calc n ≤ 2^30 := h30
        _ < (4:Int)^16 := by norm_num
    obtain ⟨hK1, hK2⟩ := findBitExp_spec 15 n (by omega) hlt
    have hmain := sqrtLoop_correct (findBitExp n 15) n 0 le_rfl (by simpa using h0)
      (by simpa [← four_pow_eq_sq] using hK2)
    simpa using hmain
  · intro n hn
    simp [integerSqrt, hn]

/-- Witness for claim C7 at n = 2 pow 30 and at n = -5. -/
theorem claim_C7_witness :
    ((integerSqrt 1073741824)^2 ≤ (1073741824:Int) ∧
      (1073741824:Int) < (integerSqrt 1073741824 + 1)^2) ∧
    integerSqrt (-5) = 0 :=
  ⟨claim_C7_integerSqrt.1 1073741824 (by norm_num) (by norm_num),
   claim_C7_integerSqrt.2 (-5) (by norm_num)⟩

lemma emitNewSpeed_fields (s : WheelState) :
    (emitNewSpeed s).cur_acc = s.cur_acc + s.step_acc ∧
    (emitNewSpeed s).CurSpeed = (s.cur_acc + s.step_acc + 512).tdiv 1024 ∧
    (emitNewSpeed s).step_acc = s.step_acc := by
  unfold emitNewSpeed
  by_cases h : (s.cur_acc + s.step_acc + 512).tdiv 1024 ≠ s.CurSpeed
  · simp [h]
  · push_neg at h
    simp [h]

lemma emitIter_fields (s : WheelState) :
    ∀ k : Nat, (emitIter s k).cur_acc = s.cur_acc + k * s.step_acc ∧
      (emitIter s k).step_acc = s.step_acc ∧
      (1 ≤ k → (emitIter s k).CurSpeed = (s.cur_acc + k * s.step_acc + 512).tdiv 1024) := by
  intro k
  induction k with
  | zero => simp [emitIter]
  | succ k ih =>
    obtain ⟨hacc, hstep, hcur⟩ := ih
    have h1 := emitNewSpeed_fields (emitIter s k)
    refine ⟨?_, ?_, fun _ => ?_⟩
    · rw [show emitIter s (k+1) = emitNewSpeed (emitIter s k) from rfl, h1.1, hacc, hstep]
      push_cast
      ring
    · rw [show emitIter s (k+1) = emitNewSpeed (emitIter s k) from rfl, h1.2.2, hstep]
    · rw [show emitIter s (k+1) = emitNewSpeed (emitIter s k) from rfl, h1.2.1, hacc, hstep]
      congr 1
      push_cast
      ring

/-- Claim C3 (confirmed): ramping from 0 with setWheelSpeed 1000 10 visits
exactly 0, 100, ..., 1000 over ten EmitNewSpeed calls (reaching 1000 at the
tenth call, never exceeding it); and whenever the computed per-tick
increment truncates to zero while the target differs from the current
speed, the forced one-accumulator-unit step still reaches the target after
finitely many calls. -/
theorem claim_C3_wheel_ramp :
    ((List.range 11).map (fun k => (emitIter (setWheelSpeed wheelInit 1000 10) k).CurSpeed) =
      [0, 100, 200, 300, 400, 500, 600, 700, 800, 900, 1000]) ∧
    (∀ (s : WheelState) (target iterations : Int),
      (target * 1024 - s.CurSpeed * 1024).tdiv (if iterations ≤ 1 then 2 else iterations) = 0 →
      target ≠ s.CurSpeed →
      ∃ k : Nat, (emitIter (setWheelSpeed s target iterations) k).CurSpeed = target) := by
  constructor
  · decide
  · intro s target iterations hstep hne
    set s1 := setWheelSpeed s target iterations with hs1
    have hne2 : target * 1024 ≠ s.CurSpeed * 1024 := by
      intro h
      exact hne (by omega)
    have hcur : s1.cur_acc = s.CurSpeed * 1024 := rfl
    have hstep1 : s1.step_acc = if s.CurSpeed * 1024 < target * 1024 then 1 else -1 := by
      show (if ((target * 1024 - s.CurSpeed * 1024).tdiv (if iterations ≤ 1 then 2 else iterations) = 0
        ∧ target * 1024 ≠ s.CurSpeed * 1024) then (if s.CurSpeed * 1024 < target * 1024 then (1:Int) else -1)
        else (target * 1024 - s.CurSpeed * 1024).tdiv (if iterations ≤ 1 then 2 else iterations)) = _
      rw [if_pos ⟨hstep, hne2⟩]
    rcases lt_or_gt_of_ne hne with hlt | hgt
    · have hstepv : s1.step_acc = -1 := by
        rw [hstep1, if_neg (by nlinarith)]
      refine ⟨((s.CurSpeed - target) * 1024 + 512).toNat, ?_⟩
      have hk : (((s.CurSpeed - target) * 1024 + 512).toNat : Int) =
          (s.CurSpeed - target) * 1024 + 512 := by
        rw [Int.toNat_of_nonneg (by nlinarith)]
      have hge1 : 1 ≤ ((s.CurSpeed - target) * 1024 + 512).toNat := by omega
      obtain ⟨-, -, hformula⟩ := emitIter_fields s1 (((s.CurSpeed - target) * 1024 + 512).toNat)
      rw [hformula hge1, hcur, hstepv, hk]
      have hpt : s.CurSpeed * 1024 + ((s.CurSpeed - target) * 1024 + 512) * (-1) + 512 =
          target * 1024 := by ring
      rw [hpt]
      exact Int.mul_tdiv_cancel target (by norm_num)
    · have hstepv : s1.step_acc = 1 := by
        rw [hstep1, if_pos (by nlinarith)]
      refine ⟨((target - s.CurSpeed) * 1024 - 512).toNat, ?_⟩
      have hk : ((((target - s.CurSpeed) * 1024 - 512).toNat) : Int) =
          (target - s.CurSpeed) * 1024 - 512 := by
        rw [Int.toNat_of_nonneg (by nlinarith)]
      have hge1 : 1 ≤ ((target - s.CurSpeed) * 1024 - 512).toNat := by omega
      obtain ⟨-, -, hformula⟩ := emitIter_fields s1 (((target - s.CurSpeed) * 1024 - 512).toNat)
      rw [hformula hge1, hcur, hstepv, hk]
      have hpt : s.CurSpeed * 1024 + ((target - s.CurSpeed) * 1024 - 512) * 1 + 512 =
          target * 1024 := by ring
      rw [hpt]
      exact Int.mul_tdiv_cancel target (by norm_num)

/-- Witness for claim C3: from speed 0, setWheelSpeed 1 2000 truncates the
per-tick step to zero, and the fallback step still reaches the target. -/
theorem claim_C3_witness :
    ∃ k : Nat, (emitIter (setWheelSpeed wheelInit 1 2000) k).CurSpeed = 1 :=
  claim_C3_wheel_ramp.2 wheelInit 1 2000 (by decide) (by decide)
lemma advancePtr_eq {C p : Int} (h0 : 0 ≤ p) (h1 : p < C) :
    advancePtr C p = (p + 1) % C := by
  unfold advancePtr
  by_cases h : C - 1 ≤ p
  · rw [if_pos h]
    have hp : p + 1 = C := by omega
    rw [hp, Int.emod_self]
  · rw [if_neg h, Int.emod_eq_of_lt (by omega) (by omega)]

lemma emod_lt_ne {C a b : Int} (_hC : 0 < C) (hne : ¬ (C ∣ b - a)) :
    a % C ≠ b % C := by
  intro h
  exact hne (Int.ModEq.dvd h)

lemma not_dvd_of_lt {C d : Int} (h1 : 0 < d) (h2 : d < C) : ¬ (C ∣ d) := by
  intro h
  have := Int.le_of_dvd h1 h
  omega

lemma emod_offset (C a b : Int) : (a % C + b) % C = (a + b) % C :=
  Int.emod_add_emod a C b

/-- Push with space available: succeeds, appends to the logical contents. -/
lemma qPush_space {α : Type} {C : Int} (ow : Bool) {s : QueueState α} (v : α)
    (hC : 2 ≤ C) (hI : QInv C s) (hcnt : s.count < C) :
    (qPush C ow s v).2 = true ∧ QInv C (qPush C ow s v).1 ∧
    (qPush C ow s v).1.count = s.count + 1 ∧
    qList C (qPush C ow s v).1 = qList C s ++ [v] := by
  obtain ⟨hh0, hh1, hc0, hc1⟩ := hI
  have havail : C - s.count ≠ 0 := by omega
  have hCpos : (0:Int) < C := by omega
  unfold qPush
  rw [if_pos (Or.inl havail), if_pos havail]
  have hadv := advancePtr_eq hh0 hh1
  refine ⟨rfl, ⟨?_, ?_, ?_, ?_⟩, rfl, ?_⟩
  · show 0 ≤ advancePtr C s.head
    rw [hadv]; exact Int.emod_nonneg _ (by omega)
  · show advancePtr C s.head < C
    rw [hadv]; exact Int.emod_lt_of_pos _ hCpos
  · show (0:Int) ≤ s.count + 1
    omega
  · show s.count + 1 ≤ C
    omega
  · -- list equality
    unfold qList
    simp only
    have hts : (s.count + 1).toNat = s.count.toNat + 1 := by omega
    rw [hts, List.range_succ, List.map_append, List.map_singleton]
    congr 1
    · -- the old elements are preserved
      apply List.map_congr_left
      intro i hi
      have hi' : (i : Int) < s.count := by
        have := List.mem_range.mp hi
        omega
      have hi0 : (0:Int) ≤ (i:Int) := by positivity
      have harg : (advancePtr C s.head - (s.count + 1) + 1 + ↑i) % C
          = (s.head - s.count + 1 + ↑i) % C := by
        rw [hadv]
        have h1 : (s.head + 1) % C - (s.count + 1) + 1 + ↑i
            = (s.head + 1) % C + (↑i - s.count) := by ring
        rw [h1, emod_offset]
        congr 1
        ring
      rw [harg]
      have hne : (s.head - s.count + 1 + ↑i) % C ≠ advancePtr C s.head := by
        rw [hadv]
        apply emod_lt_ne hCpos
        intro hdvd
        have h2 : (s.head + 1) - (s.head - s.count + 1 + ↑i) = s.count - i := by ring
        rw [h2] at hdvd
        exact not_dvd_of_lt (by omega) (by omega) hdvd
      rw [if_neg hne]
    · -- the new element lands at the new head
      have hin : advancePtr C s.head % C = advancePtr C s.head := by
        rw [hadv]
        exact Int.emod_emod_of_dvd _ dvd_rfl
      have harg : (advancePtr C s.head - (s.count + 1) + 1 + (s.count.toNat : Int)) % C
          = advancePtr C s.head := by
        have hcc : ((s.count.toNat : Int)) = s.count := by omega
        rw [hcc]
        have h1 : advancePtr C s.head - (s.count + 1) + 1 + s.count = advancePtr C s.head := by
          ring
        rw [h1, hadv]
        exact Int.emod_emod_of_dvd _ dvd_rfl
      rw [harg, if_pos rfl]

/-- Push on a full queue with overwrite: succeeds, drops the oldest. -/
lemma qPush_full_ow {α : Type} {C : Int} {s : QueueState α} (v : α)
    (hC : 2 ≤ C) (hI : QInv C s) (hcnt : s.count = C) :
    (qPush C true s v).2 = true ∧ QInv C (qPush C true s v).1 ∧
    (qPush C true s v).1.count = s.count ∧
    qList C (qPush C true s v).1 = (qList C s).drop 1 ++ [v] := by
  obtain ⟨hh0, hh1, hc0, hc1⟩ := hI
  have havail : ¬ (C - s.count ≠ 0) := by omega
  have hCpos : (0:Int) < C := by omega
  unfold qPush
  rw [if_pos (Or.inr rfl), if_neg havail]
  have hadv := advancePtr_eq hh0 hh1
  refine ⟨rfl, ⟨?_, ?_, ?_, ?_⟩, rfl, ?_⟩
  · show 0 ≤ advancePtr C s.head
    rw [hadv]; exact Int.emod_nonneg _ (by omega)
  · show advancePtr C s.head < C
    rw [hadv]; exact Int.emod_lt_of_pos _ hCpos
  · show (0:Int) ≤ s.count
    omega
  · show s.count ≤ C
    omega
  · -- list equality: drop the oldest, append at the head
    unfold qList
    simp only
    obtain ⟨m, hm⟩ : ∃ m, s.count.toNat = m + 1 := ⟨s.count.toNat - 1, by omega⟩
    rw [hm]
    conv_rhs => rw [List.range_succ_eq_map, List.map_cons, List.drop_one,
      List.tail_cons, List.map_map]
    rw [List.range_succ, List.map_append, List.map_singleton]
    congr 1
    · apply List.map_congr_left
      intro i hi
      have hi' : (i : Int) < (m : Int) := by
        have := List.mem_range.mp hi
        omega
      have hi0 : (0:Int) ≤ (i:Int) := by positivity
      have hmC : (m : Int) = C - 1 := by omega
      simp only [Function.comp]
      have harg : (advancePtr C s.head - s.count + 1 + ↑i) % C
          = (s.head - s.count + 1 + ↑(Nat.succ i)) % C := by
        rw [hadv]
        have h1 : (s.head + 1) % C - s.count + 1 + ↑i
            = (s.head + 1) % C + (↑i + 1 - s.count) := by ring
        rw [h1, emod_offset]
        congr 1
        push_cast
        ring
      rw [harg]
      have hne : (s.head - s.count + 1 + ↑(Nat.succ i)) % C ≠ advancePtr C s.head := by
        rw [hadv]
        apply emod_lt_ne hCpos
        intro hdvd
        have h2 : (s.head + 1) - (s.head - s.count + 1 + ↑(Nat.succ i)) = s.count - i - 1 := by
          push_cast
          ring
        rw [h2] at hdvd
        exact not_dvd_of_lt (by omega) (by omega) hdvd
      rw [if_neg hne]
    · have harg : (advancePtr C s.head - s.count + 1 + (m : Int)) % C
          = advancePtr C s.head := by
        have hmC : (m : Int) = s.count - 1 := by omega
        rw [hmC]
        have : advancePtr C s.head - s.count + 1 + (s.count - 1) = advancePtr C s.head := by
          ring
        rw [this, hadv]
        exact Int.emod_emod_of_dvd _ dvd_rfl
      rw [harg, if_pos rfl]

/-- Push on a full queue without overwrite: fails, state untouched. -/
lemma qPush_full_noow {α : Type} {C : Int} {s : QueueState α} (v : α)
    (hcnt : s.count = C) : qPush C false s v = (s, false) := by
  unfold qPush
  rw [if_neg (by push_neg; exact ⟨by omega, by simp⟩)]

lemma qPushAll_cons {α : Type} (C : Int) (ow : Bool) (s : QueueState α) (v : α)
    (vs : List α) :
    qPushAll C ow s (v :: vs) =
      ((qPushAll C ow (qPush C ow s v).1 vs).1,
        (qPush C ow s v).2 :: (qPushAll C ow (qPush C ow s v).1 vs).2) := rfl

/-- All pushes on a full queue without overwrite fail and leave it alone. -/
lemma qPushAll_full_noow {α : Type} {C : Int} {s : QueueState α} (xs : List α)
    (hcnt : s.count = C) :
    qPushAll C false s xs = (s, List.replicate xs.length false) := by
  induction xs with
  | nil => rfl
  | cons v vs ih =>
    rw [qPushAll_cons, qPush_full_noow v hcnt]
    simp [ih, List.replicate_succ]

/-- While space remains, pushes without overwrite succeed one by one. -/
lemma qPushAll_space_noow {α : Type} {C : Int} (hC : 2 ≤ C) :
    ∀ (xs : List α) (s : QueueState α), QInv C s → s.count + xs.length ≤ C →
    (qPushAll C false s xs).2 = List.replicate xs.length true ∧
    QInv C (qPushAll C false s xs).1 ∧
    (qPushAll C false s xs).1.count = s.count + xs.length := by
  intro xs
  induction xs with
  | nil => intro s hI _; exact ⟨rfl, hI, by simp [qPushAll]⟩
  | cons v vs ih =>
    intro s hI hlen
    have hcnt : s.count < C := by
      have : (0:Int) < (vs.length : Int) + 1 := by positivity
      simp only [List.length_cons] at hlen
      push_cast at hlen
      omega
    obtain ⟨hres, hI1, hcount, -⟩ := qPush_space false v hC hI hcnt
    rw [qPushAll_cons]
    obtain ⟨ih1, ih2, ih3⟩ := ih (qPush C false s v).1 hI1 (by
      simp only [List.length_cons] at hlen
      push_cast at hlen ⊢
      omega)
    refine ⟨by simp [hres, ih1, List.replicate_succ], ih2, by
      simp only [ih3, hcount, List.length_cons]
      push_cast
      ring⟩

/-- With overwrite, a push always succeeds and acts as listPush. -/
lemma qPush_true {α : Type} {C : Int} {s : QueueState α} (v : α)
    (hC : 2 ≤ C) (hI : QInv C s) :
    (qPush C true s v).2 = true ∧ QInv C (qPush C true s v).1 ∧
    qList C (qPush C true s v).1 = listPush C.toNat (qList C s) v := by
  have hlen : (qList C s).length = s.count.toNat := by
    simp [qList]
  by_cases hcnt : s.count < C
  · obtain ⟨h1, h2, -, h4⟩ := qPush_space true v hC hI hcnt
    refine ⟨h1, h2, ?_⟩
    rw [h4, listPush, if_pos]
    rw [hlen]
    omega
  · have hcnt' : s.count = C := by
      obtain ⟨-, -, -, hc1⟩ := hI
      omega
    obtain ⟨h1, h2, -, h4⟩ := qPush_full_ow v hC hI hcnt'
    refine ⟨h1, h2, ?_⟩
    rw [h4, listPush, if_neg]
    rw [hlen]
    omega

lemma qPushAll_true {α : Type} {C : Int} (hC : 2 ≤ C) :
    ∀ (xs : List α) (s : QueueState α), QInv C s →
    (qPushAll C true s xs).2 = List.replicate xs.length true ∧
    QInv C (qPushAll C true s xs).1 ∧
    qList C (qPushAll C true s xs).1 = List.foldl (listPush C.toNat) (qList C s) xs := by
  intro xs
  induction xs with
  | nil => intro s hI; exact ⟨rfl, hI, rfl⟩
  | cons v vs ih =>
    intro s hI
    obtain ⟨h1, h2, h3⟩ := qPush_true v hC hI
    obtain ⟨ih1, ih2, ih3⟩ := ih (qPush C true s v).1 h2
    rw [qPushAll_cons]
    refine ⟨by simp [h1, ih1, List.replicate_succ], ih2, ?_⟩
    rw [ih3, h3]
    rfl

/-- Pull on a nonempty queue returns the oldest element. -/
lemma qPull_nonempty {α : Type} {C : Int} {s : QueueState α}
    (hI : QInv C s) (hcnt : 0 < s.count) :
    qPull C s = some (s.data ((s.head - s.count + 1) % C),
      { s with count := s.count - 1 }) ∧
    QInv C ({ s with count := s.count - 1 } : QueueState α) ∧
    qList C s = s.data ((s.head - s.count + 1) % C) ::
      qList C ({ s with count := s.count - 1 } : QueueState α) := by
  obtain ⟨hh0, hh1, hc0, hc1⟩ := hI
  have hCpos : (0:Int) < C := by omega
  refine ⟨?_, ⟨hh0, hh1, ?_, ?_⟩, ?_⟩
  · unfold qPull
    rw [if_neg (by omega)]
    show some (s.data (if s.head - (s.count - 1) < 0 then s.head - (s.count - 1) + C
        else s.head - (s.count - 1)), ({ s with count := s.count - 1 } : QueueState α))
      = some (s.data ((s.head - s.count + 1) % C),
          ({ s with count := s.count - 1 } : QueueState α))
    have ht : (if s.head - (s.count - 1) < 0 then s.head - (s.count - 1) + C
        else s.head - (s.count - 1)) = (s.head - s.count + 1) % C := by
      by_cases hneg : s.head - (s.count - 1) < 0
      · rw [if_pos hneg]
        have h1 : s.head - s.count + 1 = (s.head - (s.count - 1) + C) + C * (-1) := by
          ring
        rw [h1, Int.add_mul_emod_self_left,
          Int.emod_eq_of_lt (by omega) (by omega)]
      · rw [if_neg hneg]
        have h1 : s.head - s.count + 1 = s.head - (s.count - 1) := by ring
        rw [h1, Int.emod_eq_of_lt (by omega) (by omega)]
    rw [ht]
  · show (0:Int) ≤ s.count - 1
    omega
  · show s.count - 1 ≤ C
    omega
  · have hq : qList C ({ s with count := s.count - 1 } : QueueState α) =
        (List.range (s.count - 1).toNat).map
          (fun i : Nat => s.data ((s.head - (s.count - 1) + 1 + (i : Int)) % C)) := rfl
    have hq0 : qList C s =
        (List.range s.count.toNat).map
          (fun i : Nat => s.data ((s.head - s.count + 1 + (i : Int)) % C)) := rfl
    obtain ⟨m, hm⟩ : ∃ m, s.count.toNat = m + 1 := ⟨s.count.toNat - 1, by omega⟩
    rw [hq, hq0, hm, show (s.count - 1).toNat = m from by omega,
      List.range_succ_eq_map, List.map_cons, List.map_map]
    congr 1
    · norm_num
    · apply List.map_congr_left
      intro i hi
      simp only [Function.comp]
      congr 2
      push_cast
      ring

/-- Draining a queue yields exactly its logical contents. -/
lemma qDrain_eq {α : Type} {C : Int} (_hC : 2 ≤ C) :
    ∀ (n : Nat) (s : QueueState α), QInv C s → s.count.toNat = n →
    qDrain C s = qList C s := by
  intro n
  induction n with
  | zero =>
    intro s hI hn
    have h0 : qList C s = [] := by
      unfold qList
      rw [hn]
      simp
    unfold qDrain
    rw [hn, h0]
    rfl
  | succ m ih =>
    intro s hI hn
    have hcnt : 0 < s.count := by
      obtain ⟨-, -, hc0, -⟩ := hI
      omega
    obtain ⟨h1, h2, h3⟩ := qPull_nonempty hI hcnt
    unfold qDrain
    rw [hn]
    show qPullN C s (m+1) = qList C s
    rw [qPullN, h1]
    have hmc : (({ s with count := s.count - 1 } : QueueState α).count).toNat = m := by
      show (s.count - 1).toNat = m
      omega
    have ihres := ih _ h2 hmc
    unfold qDrain at ihres
    rw [hmc] at ihres
    show s.data ((s.head - s.count + 1) % C) ::
      qPullN C ({ s with count := s.count - 1 } : QueueState α) m = qList C s
    rw [ihres, h3]

lemma listPush_eq_lastN {α : Type} (cap : Nat) (l : List α) (x : α)
    (h : l.length ≤ cap) (hcap : 1 ≤ cap) :
    listPush cap l x = lastN cap (l ++ [x]) := by
  unfold listPush lastN
  by_cases hlt : l.length < cap
  · rw [if_pos hlt]
    rw [show (l ++ [x]).length - cap = 0 from by simp; omega, List.drop_zero]
  · rw [if_neg hlt]
    rw [show (l ++ [x]).length - cap = 1 from by simp; omega,
      List.drop_append_of_le_length (by omega)]

lemma lastN_lastN_append {α : Type} (cap : Nat) (m xs : List α) :
    lastN cap (lastN cap m ++ xs) = lastN cap (m ++ xs) := by
  unfold lastN
  rw [← List.drop_append_of_le_length (Nat.sub_le m.length cap), List.drop_drop]
  congr 1
  simp only [List.length_drop, List.length_append]
  omega

lemma foldl_listPush_lastN {α : Type} (cap : Nat) (hcap : 1 ≤ cap) :
    ∀ (xs l : List α), l.length ≤ cap →
    List.foldl (listPush cap) l xs = lastN cap (l ++ xs) := by
  intro xs
  induction xs with
  | nil =>
    intro l h
    rw [List.foldl_nil, List.append_nil]
    unfold lastN
    rw [show l.length - cap = 0 from by omega, List.drop_zero]
  | cons x xs ih =>
    intro l h
    rw [List.foldl_cons]
    have hlen : (listPush cap l x).length ≤ cap := by
      unfold listPush
      by_cases hlt : l.length < cap
      · rw [if_pos hlt]; simp; omega
      · rw [if_neg hlt]; simp; omega
    rw [ih (listPush cap l x) hlen, listPush_eq_lastN cap l x h hcap,
      lastN_lastN_append]
    congr 1
    simp

lemma qPushAll_append {α : Type} (C : Int) (ow : Bool) :
    ∀ (xs ys : List α) (s : QueueState α),
    qPushAll C ow s (xs ++ ys) =
      ((qPushAll C ow (qPushAll C ow s xs).1 ys).1,
        (qPushAll C ow s xs).2 ++ (qPushAll C ow (qPushAll C ow s xs).1 ys).2) := by
  intro xs
  induction xs with
  | nil => intro ys s; rfl
  | cons x xs ih =>
    intro ys s
    simp only [List.cons_append, qPushAll_cons, ih ys (qPush C ow s x).1]

lemma qList_empty {α : Type} (C : Int) (d0 : α) : qList C (emptyQueue d0) = [] := rfl

/-- Claim C4 (confirmed): for a queue of any capacity C between 2 and 39,
pushing a sequence longer than C without overwrite succeeds exactly C times
and fails on every excess push, leaving count = C; with overwrite enabled
every push of the same sequence succeeds, the count never exceeds C after
any prefix, and pulling everything afterwards yields exactly the most
recent C pushed elements in FIFO order. -/
theorem claim_C4_queue_discipline (C : Nat) (hC2 : 2 ≤ C) (hC39 : C ≤ 39) {α : Type} (d0 : α)
    (xs : List α) (hlen : C < xs.length) (n : Nat) :
    ((qPushAll (C:Int) false (emptyQueue d0) xs).1.count = (C:Int) ∧
      (qPushAll (C:Int) false (emptyQueue d0) xs).2 =
        List.replicate C true ++ List.replicate (xs.length - C) false) ∧
    ((qPushAll (C:Int) true (emptyQueue d0) xs).2 = List.replicate xs.length true ∧
      (qPushAll (C:Int) true (emptyQueue d0) (xs.take n)).1.count ≤ (C:Int) ∧
      qDrain (C:Int) (qPushAll (C:Int) true (emptyQueue d0) xs).1 =
        xs.drop (xs.length - C)) := by
  have hCI : (2:Int) ≤ (C:Int) := by exact_mod_cast hC2
  have hInv0 : QInv (C:Int) (emptyQueue d0 : QueueState α) := by
    refine ⟨?_, ?_, ?_, ?_⟩
    · show (0:Int) ≤ 0
      exact le_refl 0
    · show (0:Int) < (C:Int)
      exact_mod_cast by omega
    · show (0:Int) ≤ 0
      exact le_refl 0
    · show (0:Int) ≤ (C:Int)
      positivity
  constructor
  · -- no-overwrite branch
    have hxs : xs.take C ++ xs.drop C = xs := List.take_append_drop C xs
    have htake : (xs.take C).length = C := by
      rw [List.length_take]
      omega
    have hdrop : (xs.drop C).length = xs.length - C := List.length_drop C xs
    obtain ⟨hres1, hI1, hcnt1⟩ := qPushAll_space_noow hCI (xs.take C)
      (emptyQueue d0) hInv0 (by
        show (0:Int) + ((xs.take C).length : Int) ≤ (C:Int)
        rw [htake]
        omega)
    have hfull : (qPushAll (C:Int) false (emptyQueue d0) (xs.take C)).1.count = (C:Int) := by
      rw [hcnt1]
      show (0:Int) + _ = _
      rw [htake]
      omega
    obtain h2 := qPushAll_full_noow (xs.drop C) hfull
    have hmain : qPushAll (C:Int) false (emptyQueue d0) xs
        = ((qPushAll (C:Int) false (emptyQueue d0) (xs.take C)).1,
           (qPushAll (C:Int) false (emptyQueue d0) (xs.take C)).2
             ++ List.replicate (xs.drop C).length false) := by
      conv_lhs => rw [← hxs]
      rw [qPushAll_append, h2]
    rw [hmain]
    dsimp only
    exact ⟨hfull, by rw [hres1, htake, hdrop]⟩
  · -- overwrite branch
    obtain ⟨hres2, hI2, hlist2⟩ := qPushAll_true hCI xs (emptyQueue d0) hInv0
    obtain ⟨-, hI3, -⟩ := qPushAll_true hCI (xs.take n) (emptyQueue d0) hInv0
    refine ⟨hres2, hI3.2.2.2, ?_⟩
    have hdrain := qDrain_eq hCI
      ((qPushAll (C:Int) true (emptyQueue d0) xs).1.count.toNat) _ hI2 rfl
    rw [hdrain, hlist2, qList_empty,
      foldl_listPush_lastN ((C:Int)).toNat (by simp; omega) xs [] (by simp),
      List.nil_append]
    unfold lastN
    congr 1


/-- Witness for claim C4 at capacity 3 over the Int sequence 10..50 with
prefix length 4. -/
theorem claim_C4_witness :
    (((qPushAll ((3:Nat):Int) false (emptyQueue (0:Int)) [10, 20, 30, 40, 50]).1.count
        = ((3:Nat):Int) ∧
      (qPushAll ((3:Nat):Int) false (emptyQueue (0:Int)) [10, 20, 30, 40, 50]).2 =
        List.replicate 3 true ++
          List.replicate (([10, 20, 30, 40, 50] : List Int).length - 3) false) ∧
    ((qPushAll ((3:Nat):Int) true (emptyQueue (0:Int)) [10, 20, 30, 40, 50]).2 =
        List.replicate ([10, 20, 30, 40, 50] : List Int).length true ∧
      (qPushAll ((3:Nat):Int) true (emptyQueue (0:Int))
          (([10, 20, 30, 40, 50] : List Int).take 4)).1.count ≤ ((3:Nat):Int) ∧
      qDrain ((3:Nat):Int) (qPushAll ((3:Nat):Int) true (emptyQueue (0:Int))
          [10, 20, 30, 40, 50]).1 =
        ([10, 20, 30, 40, 50] : List Int).drop
          (([10, 20, 30, 40, 50] : List Int).length - 3))) :=
  claim_C4_queue_discipline 3 (by norm_num) (by norm_num) (0:Int)
    [10, 20, 30, 40, 50] (by decide) 4

lemma mmInv_switchMode (s : MMState) (ns : MotionMode) (h : mmInv s) :
    mmInv (switchMode s ns) := by
  obtain ⟨hp, hl⟩ := h
  have hflags : s.active = none → s.patActive = false ∧ s.lineActive = false := by
    intro hact
    constructor
    · cases hpa : s.patActive
      · rfl
      · rw [hp hpa] at hact; cases hact
    · cases hla : s.lineActive
      · rfl
      · rw [hl hla] at hact; cases hact
  cases hact : s.active with
  | none =>
    obtain ⟨hpf, hlf⟩ := hflags hact
    cases ns <;>
      simp [switchMode, ctrlStart, ctrlStop, mmInv, hact, hpf, hlf]
  | some cid =>
    cases cid with
    | pattern =>
      have hlf : s.lineActive = false := by
        cases hla : s.lineActive
        · rfl
        · rw [hl hla] at hact; cases hact
      cases ns <;>
        simp [switchMode, ctrlStart, ctrlStop, mmInv, hact, hlf]
    | lineF =>
      have hpf : s.patActive = false := by
        cases hpa : s.patActive
        · rfl
        · rw [hp hpa] at hact; cases hact
      cases ns <;>
        simp [switchMode, ctrlStart, ctrlStop, mmInv, hact, hpf]

lemma mmInv_estop (s : MMState) (h : mmInv s) : mmInv (mmEmergencyStop s) := by
  obtain ⟨hp, hl⟩ := h
  cases hact : s.active with
  | none =>
    have hpf : s.patActive = false := by
      cases hpa : s.patActive
      · rfl
      · rw [hp hpa] at hact; cases hact
    have hlf : s.lineActive = false := by
      cases hla : s.lineActive
      · rfl
      · rw [hl hla] at hact; cases hact
    simp [mmEmergencyStop, mmInv, hact, hpf, hlf]
  | some cid =>
    cases cid with
    | pattern =>
      have hlf : s.lineActive = false := by
        cases hla : s.lineActive
        · rfl
        · rw [hl hla] at hact; cases hact
      simp [mmEmergencyStop, ctrlStop, mmInv, hact, hlf]
    | lineF =>
      have hpf : s.patActive = false := by
        cases hpa : s.patActive
        · rfl
        · rw [hp hpa] at hact; cases hact
      simp [mmEmergencyStop, ctrlStop, mmInv, hact, hpf]

lemma mmInv_run : ∀ (cmds : List MMCmd) (s : MMState), mmInv s → mmInv (mmRun s cmds) := by
  intro cmds
  induction cmds with
  | nil => intro s h; exact h
  | cons c cs ih =>
    intro s h
    cases c with
    | switch ns => exact ih _ (mmInv_switchMode s ns h)
    | estop => exact ih _ (mmInv_estop s h)

/-- Claim C5 (confirmed): switching to pattern mode and then to line
following emits exactly the trace start pattern, stop pattern, start
line-follower (the pattern controller is stopped exactly once, before the
line-follow controller is started); and over every command sequence at
most one controller is started at a time. -/
theorem claim_C5_motion_exclusivity :
    ((mmRun mmInit [MMCmd.switch .MOTION_PATTERN, MMCmd.switch .MOTION_LINE_FOLLOWING]).events
        = [MMEvent.started .pattern, MMEvent.stopped .pattern, MMEvent.started .lineF] ∧
      (mmRun mmInit [MMCmd.switch .MOTION_PATTERN,
        MMCmd.switch .MOTION_LINE_FOLLOWING]).events.count (MMEvent.stopped .pattern) = 1) ∧
    (∀ cmds : List MMCmd,
      ((mmRun mmInit cmds).patActive && (mmRun mmInit cmds).lineActive) = false) := by
  refine ⟨⟨rfl, rfl⟩, ?_⟩
  intro cmds
  have hinv : mmInv (mmRun mmInit cmds) :=
    mmInv_run cmds mmInit ⟨fun h => Bool.noConfusion h, fun h => Bool.noConfusion h⟩
  obtain ⟨hp, hl⟩ := hinv
  cases hpa : (mmRun mmInit cmds).patActive with
  | false => rfl
  | true =>
    cases hla : (mmRun mmInit cmds).lineActive with
    | false => simp
    | true =>
      have h1 := hp hpa
      have h2 := hl hla
      rw [h1] at h2
      cases h2

/-- Claim C2 (code bug in L298): move 2000 and move -2000 clamp the stored
speed to 1023 and -1023 in every driver, and the high-power and simulated
drivers report that clamped speed from getSpeed; but L298 getSpeed returns
the unsigned 8-bit PWM duty 255 in both cases instead of the clamped
speed. -/
theorem claim_C2_motor_clamp_getSpeed :
    ((l298Move l298Init 2000).speed = 1023 ∧ (l298Move l298Init (-2000)).speed = -1023 ∧
      l298GetSpeed (l298Move l298Init 2000) = 255 ∧
      l298GetSpeed (l298Move l298Init (-2000)) = 255) ∧
    (hpGetSpeed (hpMove hpInit 2000) = 1023 ∧ hpGetSpeed (hpMove hpInit (-2000)) = -1023) ∧
    (vmGetSpeed (vmMove vmInit 2000) = 1023 ∧ vmGetSpeed (vmMove vmInit (-2000)) = -1023) := by
  decide

/-- Counterexample for claim C9: move 0 on the L298 does not produce a
zero-duty brake; the duty written to the PWM pin is 255. -/
theorem claim_C9_counterexample :
    (l298Move l298Init 0).lastAnalogWrite = 255 ∧
    ((l298Move l298Init 0).lastAnalogWrite = 0 → False) := by
  refine ⟨rfl, ?_⟩
  intro h
  exact absurd h (by decide)

/-- Claim C9 (corrected): on the L298, move 0 routes to stop (after the
clamped speed 0 is stored); stop drives both direction pins low and writes
the always-high duty 255 to the PWM pin, so move 0 produces the same
full-duty brake as stop, not a zero-duty one. -/
theorem claim_C9_l298_brake (s : L298State) :
    l298Move s 0 = l298Stop { s with speed := 0 } ∧
    (l298Stop s).pinIN1 = false ∧ (l298Stop s).pinIN2 = false ∧
    (l298Stop s).lastAnalogWrite = 255 :=
  ⟨rfl, rfl, rfl, rfl⟩

/-- Claim C8 (confirmed): addWaypoint fails and leaves the state entirely
unmodified whenever the store already holds 1000 waypoints, or there is a
previous waypoint and the delta to it falls outside -32767..32767 in
either coordinate. -/
theorem claim_C8_addWaypoint_rejects (s : PerimState) (x y : Int)
    (h : s.count = 1000 ∨
      (1 ≤ s.count ∧ s.count < 1000 ∧
        (x - (getWaypointAt s (s.count - 1)).x < -32767 ∨
         32767 < x - (getWaypointAt s (s.count - 1)).x ∨
         y - (getWaypointAt s (s.count - 1)).y < -32767 ∨
         32767 < y - (getWaypointAt s (s.count - 1)).y))) :
    addWaypoint s x y = (s, false) := by
  unfold addWaypoint
  rcases h with h | ⟨h1, h2, h3⟩
  · rw [if_pos (by omega)]
  · rw [if_neg (by omega), if_neg (by omega)]
    exact if_pos h3

/-- Witness for claim C8: after one stored waypoint at the origin, adding
the point x = 40000 produces the delta dx = 40000 and is rejected. -/
theorem claim_C8_witness :
    addWaypoint (addWaypoint emptyPerim 0 0).1 40000 0 =
      ((addWaypoint emptyPerim 0 0).1, false) :=
  claim_C8_addWaypoint_rejects (addWaypoint emptyPerim 0 0).1 40000 0 (by decide)

/-- Counterexample for claim C10: on an empty store with maxCount = -1,
getWaypoints returns -1, not 0 (while still writing the origin into the
buffer at index 0). -/
theorem claim_C10_counterexample :
    (getWaypointsModel emptyPerim (-1)).1 = -1 ∧
    ((getWaypointsModel emptyPerim (-1)).1 = 0 → False) ∧
    (getWaypointsModel emptyPerim (-1)).2 = [(0, (⟨0, 0⟩ : Point2D))] := by
  refine ⟨rfl, ?_, rfl⟩
  intro h
  exact absurd h (by decide)

/-- Claim C10 (corrected): called on an empty store or with maxCount at
most 0, getWaypoints returns the smaller of the stored count and maxCount
(which is at most 0, and equals maxCount rather than 0 when maxCount is
negative), yet it still unconditionally performs exactly one buffer write:
the origin into buffer index 0, beyond the returned element count. -/
theorem claim_C10_getWaypoints_buffer_write (s : PerimState) (maxCount : Int)
    (h : s.count = 0 ∨ maxCount ≤ 0) :
    (getWaypointsModel s maxCount).1 =
      (if s.count < maxCount then s.count else maxCount) ∧
    (getWaypointsModel s maxCount).1 ≤ 0 ∧
    (getWaypointsModel s maxCount).2 = [(0, s.origin)] := by
  have hcount : (if s.count < maxCount then s.count else maxCount) ≤ 0 := by
    rcases h with h | h
    · by_cases hc : s.count < maxCount
      · rw [if_pos hc]; omega
      · rw [if_neg hc]; omega
    · by_cases hc : s.count < maxCount
      · rw [if_pos hc]; omega
      · rw [if_neg hc]; omega
  refine ⟨rfl, hcount, ?_⟩
  show (0, s.origin) :: prefixWrites s.origin
      (s.waypoints.take ((if s.count < maxCount then s.count else maxCount) - 1).toNat) 1
    = [(0, s.origin)]
  rw [show ((if s.count < maxCount then s.count else maxCount) - 1).toNat = 0 from by omega]
  rw [List.take_zero]
  rfl

/-- Witness for claim C10 on an empty store with maxCount 5. -/
theorem claim_C10_witness :
    (getWaypointsModel emptyPerim 5).1 =
      (if emptyPerim.count < 5 then emptyPerim.count else 5) ∧
    (getWaypointsModel emptyPerim 5).1 ≤ 0 ∧
    (getWaypointsModel emptyPerim 5).2 = [(0, emptyPerim.origin)] :=
  claim_C10_getWaypoints_buffer_write emptyPerim 5 (Or.inl rfl)

/-- Claim C6 (code bug): fast_magnitude halves its inputs at most once
(the while loop body returns unconditionally), so on inputs that need more
than one halving it returns a value nowhere near sqrt of x squared plus y
squared: at (140000, 140000) it returns 38958, less than one fifth of the
true magnitude 197989, while the repaired shift-counting variant of the
generic wrapper returns 170024. -/
theorem claim_C6_fast_magnitude_bug :
    fast_magnitude 140000 140000 = 38958 ∧
    integerSqrt64 (140000 * 140000 + 140000 * 140000) = 197989 ∧
    fast_magnitude 140000 140000 * 5 < integerSqrt64 (140000 * 140000 + 140000 * 140000) ∧
    fastMagnitudeGeneric 140000 140000 = 170024 := by
  decide

set_option maxHeartbeats 24000000 in
/-- Claim C1 (corrected): on the 10 m eastward line from the origin with
the robot at mid-line x = 5000 and heading 900 (aligned with the line)
and displaced py millimeters to the left, Callback steers back toward the
line (negative cross-track error and a left wheel speed strictly below
the right) exactly for the offsets 1 to 349 other than 2, 4 and 6; the
theorem settles every offset in the probed range 0 to 360.  At the even
offsets 2, 4 and 6 the poisoned first arctangent table entry corrupts the
heading error so that Callback commands left greater than right (for
example (690, 310) at 2 mm), while at the odd offsets 1, 3, 5, 7 the same
corruption saturates the output to (0, 1000), which still steers left
below right.  From 350 mm on the negative cross-track term (whose sign
opposes the heading term) equalizes and then dominates the correction,
making the left speed at least the right. -/
theorem claim_C1_steering_small_offset :
    ∀ py ∈ Finset.Icc (0:ℕ) 360,
      steersRight (py : Int) =
        decide (1 ≤ py ∧ py ≤ 349 ∧ py ≠ 2 ∧ py ≠ 4 ∧ py ≠ 6) := by
  decide

/-- Witness for claim C1 at offset 100 mm. -/
theorem claim_C1_witness : steersRight ((100:ℕ) : Int) = true :=
  (claim_C1_steering_small_offset 100 (by decide)).trans (by decide)

/-- Counterexample for claim C1: at offset 5000 mm (robot well left of the
line, heading aligned, cross-track error -5000 by construction) Callback
commands left = 1000 and right = 0, so the left wheel target is strictly
greater than the right, not lower. -/
theorem claim_C1_counterexample :
    calculateCrossTrackError lineS lineE ⟨5000, 5000⟩ < 0 ∧
    lineFollowerCallback lineS lineE ⟨5000, 5000⟩ 900 = some (1000, 0) ∧
    steersRight 5000 = false := by
  decide
